import Mathlib

/-!
Verification development for the Obsidian (gobs) account state store and
block synchronizer. The Go sources are shallowly embedded: machine bytes are
Nat values below 256, 64-bit lanes are Nat values reduced modulo 2 ^ 64,
big.Int balances are Int, Go maps keyed by addresses or hashes are functions
into Option, and Go map iteration (whose order the language leaves
unspecified) is made explicit through an order parameter wherever the result
can depend on it. Store-mutating methods are state-passing functions.
-/

set_option maxRecDepth 100000

namespace GobsVerify

/-! ### Keccak-256 as used through go-ethereum crypto (legacy Keccak padding,
domain byte 0x01). -/

def mask64 : Nat := 2 ^ 64 - 1

def rotl64 (x n : Nat) : Nat :=
  ((x <<< n) ||| (x >>> (64 - n))) % 2 ^ 64

def keccakRC : List Nat :=
  [0x0000000000000001, 0x0000000000008082, 0x800000000000808a, 0x8000000080008000,
   0x000000000000808b, 0x0000000080000001, 0x8000000080008081, 0x8000000000008009,
   0x000000000000008a, 0x0000000000000088, 0x0000000080008009, 0x000000008000000a,
   0x000000008000808b, 0x800000000000008b, 0x8000000000008089, 0x8000000000008003,
   0x8000000000008002, 0x8000000000000080, 0x000000000000800a, 0x800000008000000a,
   0x8000000080008081, 0x8000000000008080, 0x0000000080000001, 0x8000000080008008]

/-- Rotation offsets, one row per y, flattened to lane index x + 5 * y. -/
def rotOff : List Nat :=
  [[0, 1, 62, 28, 27],
   [36, 44, 6, 55, 20],
   [3, 10, 43, 25, 39],
   [41, 45, 15, 21, 8],
   [18, 2, 61, 56, 14]].flatten

def theta (A : List Nat) : List Nat :=
  let C := (List.range 5).map fun x =>
    A.getD x 0 ^^^ A.getD (x + 5) 0 ^^^ A.getD (x + 10) 0 ^^^
      A.getD (x + 15) 0 ^^^ A.getD (x + 20) 0
  (List.range 25).map fun i =>
    A.getD i 0 ^^^ C.getD ((i % 5 + 4) % 5) 0 ^^^ rotl64 (C.getD ((i % 5 + 1) % 5) 0) 1

def rhoPi (A : List Nat) : List Nat :=
  ((List.range 5).flatMap fun x => (List.range 5).map fun y => (x, y)).foldl
    (fun B p =>
      B.set (p.2 + 5 * ((2 * p.1 + 3 * p.2) % 5))
        (rotl64 (A.getD (p.1 + 5 * p.2) 0) (rotOff.getD (p.1 + 5 * p.2) 0)))
    (List.replicate 25 0)

def chi (B : List Nat) : List Nat :=
  (List.range 25).map fun i =>
    let x := i % 5
    let y := i / 5
    B.getD i 0 ^^^ ((B.getD ((x + 1) % 5 + 5 * y) 0 ^^^ mask64) &&& B.getD ((x + 2) % 5 + 5 * y) 0)

def keccakRound (st : List Nat) (rc : Nat) : List Nat :=
  let B := chi (rhoPi (theta st))
  B.set 0 (B.getD 0 0 ^^^ rc)

def keccakF (A : List Nat) : List Nat :=
  keccakRC.foldl keccakRound A

def bytesToLane (bs : List Nat) : Nat :=
  bs.foldr (fun b acc => b + 256 * acc) 0

def laneBytes (l : Nat) : List Nat :=
  (List.range 8).map fun i => (l >>> (8 * i)) % 256

def absorbBlock (A : List Nat) (blk : List Nat) : List Nat :=
  keccakF ((List.range 25).map fun i =>
    if i < 17 then A.getD i 0 ^^^ bytesToLane ((blk.drop (8 * i)).take 8) else A.getD i 0)

def chunk136Go : Nat → List Nat → List (List Nat)
  | 0, _ => []
  | _ + 1, [] => []
  | fuel + 1, b :: rest =>
    (b :: rest).take 136 :: chunk136Go fuel ((b :: rest).drop 136)

def chunk136 (l : List Nat) : List (List Nat) :=
  chunk136Go (l.length + 1) l

def keccakPad (msg : List Nat) : List Nat :=
  let r := 136
  let padLen := r - msg.length % r
  if padLen = 1 then msg ++ [0x81]
  else msg ++ [0x01] ++ List.replicate (padLen - 2) 0 ++ [0x80]

/-- Keccak-256 digest (32 bytes) of a byte list; matches crypto.Keccak256. -/
def keccak256 (msg : List Nat) : List Nat :=
  let final := (chunk136 (keccakPad msg)).foldl absorbBlock (List.replicate 25 0)
  laneBytes (final.getD 0 0) ++ laneBytes (final.getD 1 0) ++
    laneBytes (final.getD 2 0) ++ laneBytes (final.getD 3 0)

/-- Big-endian value of a byte list. -/
def beValue (bs : List Nat) : Nat :=
  bs.foldl (fun acc b => 256 * acc + b) 0

/-- A common.Hash is represented by the big-endian value of its 32 bytes. -/
def keccakHash (msg : List Nat) : Nat := beValue (keccak256 msg)

/-- Fixed-width big-endian byte representation, for common.Address (w = 20)
and common.Hash (w = 32). -/
def beBytesFixed (w n : Nat) : List Nat :=
  (List.range w).map fun i => (n >>> (8 * (w - 1 - i))) % 256

def addrBytes (a : Nat) : List Nat := beBytesFixed 20 a

def hashBytes (h : Nat) : List Nat := beBytesFixed 32 h

/-- common.BytesToHash keeps the last 32 bytes, left-padding with zeroes. -/
def bytesToHash (bs : List Nat) : Nat := beValue bs % 2 ^ 256

/-! ### RLP encoding of accounts (go-ethereum rlp, for the fixed Account
shape Nonce, Balance, Root, CodeHash). -/

def beBytesGo : Nat → Nat → List Nat
  | 0, _ => []
  | _ + 1, 0 => []
  | fuel + 1, n + 1 => beBytesGo fuel ((n + 1) / 256) ++ [(n + 1) % 256]

/-- Minimal big-endian byte representation of a Nat (empty for 0), as used by
big.Int Bytes and by the rlp integer encodings. -/
def beBytes (n : Nat) : List Nat := beBytesGo n n

def rlpBytes (s : List Nat) : List Nat :=
  if s.length = 1 && s.getD 0 0 < 0x80 then s
  else if s.length ≤ 55 then (0x80 + s.length) :: s
  else (0xb7 + (beBytes s.length).length) :: (beBytes s.length ++ s)

def rlpNat (n : Nat) : List Nat := rlpBytes (beBytes n)

def rlpListPayload (payload : List Nat) : List Nat :=
  if payload.length ≤ 55 then (0xc0 + payload.length) :: payload
  else (0xf7 + (beBytes payload.length).length) :: (beBytes payload.length ++ payload)

/-- The account data of one address: Nonce, Balance, storage Root, CodeHash.
Balance is Int because the Go code manipulates it with signed big.Int
arithmetic. -/
structure Account where
  nonce : Nat
  balance : Int
  root : Nat
  codeHash : List Nat
deriving DecidableEq

/-- rlp.EncodeToBytes of an Account; go-ethereum rlp rejects negative big.Int
values with an error, modelled as none. -/
def rlpAccount (a : Account) : Option (List Nat) :=
  if a.balance < 0 then none
  else some (rlpListPayload (rlpNat a.nonce ++ rlpNat a.balance.toNat ++
    rlpBytes (hashBytes a.root) ++ rlpBytes a.codeHash))

/-- Parses one rlp string item, returning its content bytes and the rest. -/
def rlpItem (bs : List Nat) : Option (List Nat × List Nat) :=
  match bs with
  | [] => none
  | b :: rest =>
    if b < 0x80 then some ([b], rest)
    else if b ≤ 0xb7 then
      let n := b - 0x80
      if rest.length < n then none else some (rest.take n, rest.drop n)
    else if b ≤ 0xbf then
      let ll := b - 0xb7
      if rest.length < ll then none
      else
        let n := beValue (rest.take ll)
        if (rest.drop ll).length < n then none
        else some ((rest.drop ll).take n, (rest.drop ll).drop n)
    else none

/-- rlp.DecodeBytes into the Account shape. -/
def rlpDecodeAccount (bs : List Nat) : Option Account :=
  match bs with
  | [] => none
  | b :: rest =>
    let payload? : Option (List Nat) :=
      if b < 0xc0 then none
      else if b ≤ 0xf7 then
        if rest.length = b - 0xc0 then some rest else none
      else
        let ll := b - 0xf7
        if rest.length < ll then none
        else if (rest.drop ll).length = beValue (rest.take ll) then some (rest.drop ll)
        else none
    match payload? with
    | none => none
    | some payload =>
      match rlpItem payload with
      | none => none
      | some (c1, r1) =>
        match rlpItem r1 with
        | none => none
        | some (c2, r2) =>
          match rlpItem r2 with
          | none => none
          | some (c3, r3) =>
            match rlpItem r3 with
            | none => none
            | some (c4, r4) =>
              if r4 = [] ∧ c1.length ≤ 8 ∧ c3.length = 32 then
                some { nonce := beValue c1, balance := Int.ofNat (beValue c2),
                       root := beValue c3, codeHash := c4 }
              else none

/-! ### The state model (src/unnamed/part_003, package state). -/

/-- emptyCodeHash = crypto.Keccak256Hash(nil), kept as its byte list since the
Go code stores CodeHash as a byte slice. -/
def emptyCodeHash : List Nat := keccak256 []

/-- emptyRoot = the well-known empty-trie root constant from the source. -/
def emptyRoot : Nat :=
  0x56e81f171bcc55a6ff8345e692c0f86e5b48e01b996cadc001622fb5e363b421

/-- A stateObject: one account's mutable working copy, its code, flags and the
three storage layers. -/
structure StateObject where
  address : Nat
  addrHash : Nat
  data : Account
  code : List Nat
  codeHash : List Nat
  dirty : Bool
  suicided : Bool
  deleted : Bool
  originStorage : Nat → Option Nat
  pendingStorage : Nat → Option Nat
  dirtyStorage : Nat → Option Nat

/-- Modelled from the spec: the persistent key/value layer (core/rawdb) is not
under src/; section 6 of the spec describes it as a byte-string keyed
get/put/delete/batch store with a fixed key-prefix scheme per data category
and, for storage, a secondary hash of the slot key. Only the three read
entry points the state code calls are needed here. -/
structure RawDB where
  accountData : Nat → Option (List Nat)
  codeData : Nat → List Nat
  storageData : Nat → Nat → Option (List Nat)

/-- The journalEntry interface of the source has no implementing type anywhere
in the repository (no write constructs an entry), so the type of entries is
empty. -/
inductive JournalEntry : Type
deriving DecidableEq

/-- revert of a journal entry; with no entry forms, there is nothing to do. -/
def revertEntry (e : JournalEntry) : α → α := nomatch e

structure Revision where
  id : Nat
  journalIndex : Nat
deriving DecidableEq

structure LogEntry where
  address : Nat
  txHash : Nat
  txIndex : Nat
  blockNumber : Nat
  blockHash : Nat
  index : Nat
deriving DecidableEq

/-- The StateDB record (journal, revisions, transaction context and logs
included). -/
@[ext]
structure StateDB where
  db : Option RawDB
  root : Nat
  objects : Nat → Option StateObject
  dirty : Nat → Bool
  deleted : Nat → Bool
  journal : List JournalEntry
  validRevisions : List Revision
  nextRevisionId : Nat
  txHash : Nat
  txIndex : Nat
  logs : Nat → List LogEntry
  logSize : Nat

/-- Pointwise update of a function-modelled map. -/
def updF (f : Nat → α) (k : Nat) (v : α) : Nat → α :=
  fun x => if x = k then v else f x

def NewMemoryStateDB : StateDB :=
  { db := none, root := emptyRoot, objects := fun _ => none,
    dirty := fun _ => false, deleted := fun _ => false,
    journal := [], validRevisions := [], nextRevisionId := 0,
    txHash := 0, txIndex := 0, logs := fun _ => [], logSize := 0 }

/-- The fresh object built by createObject: zero balance and nonce, the empty
code hash, the empty-trie storage root, empty storage layers. -/
def createdObject (addr : Nat) : StateObject :=
  { address := addr, addrHash := keccakHash (addrBytes addr),
    data := { nonce := 0, balance := 0, root := emptyRoot, codeHash := emptyCodeHash },
    code := [], codeHash := [],
    dirty := false, suicided := false, deleted := false,
    originStorage := fun _ => none, pendingStorage := fun _ => none,
    dirtyStorage := fun _ => none }

def createObject (s : StateDB) (addr : Nat) : StateObject × StateDB :=
  let obj := createdObject addr
  (obj, { s with objects := updF s.objects addr (some obj) })

def GetOrNewStateObject (s : StateDB) (addr : Nat) : StateObject × StateDB :=
  match s.objects addr with
  | none => createObject s addr
  | some o => if o.deleted then createObject s addr else (o, s)

def loadStateObject (s : StateDB) (db : RawDB) (addr : Nat) :
    Option StateObject × StateDB :=
  let addrHash := keccakHash (addrBytes addr)
  match db.accountData addrHash with
  | none => (none, s)
  | some bs =>
    match rlpDecodeAccount bs with
    | none => (none, s)
    | some account =>
      let loadCode := 0 < account.codeHash.length ∧ account.codeHash ≠ emptyCodeHash
      let obj : StateObject :=
        { address := addr, addrHash := addrHash, data := account,
          code := if loadCode then db.codeData (bytesToHash account.codeHash) else [],
          codeHash := if loadCode then account.codeHash else [],
          dirty := false, suicided := false, deleted := false,
          originStorage := fun _ => none, pendingStorage := fun _ => none,
          dirtyStorage := fun _ => none }
      (some obj, { s with objects := updF s.objects addr (some obj) })

def getStateObject (s : StateDB) (addr : Nat) : Option StateObject × StateDB :=
  match s.objects addr with
  | some o =>
    if o.deleted then
      match s.db with
      | some db => loadStateObject s db addr
      | none => (none, s)
    else (some o, s)
  | none =>
    match s.db with
    | some db => loadStateObject s db addr
    | none => (none, s)

def GetBalance (s : StateDB) (addr : Nat) : Int × StateDB :=
  match getStateObject s addr with
  | (some o, s1) => (o.data.balance, s1)
  | (none, s1) => (0, s1)

def SetBalance (s : StateDB) (addr : Nat) (amount : Int) : StateDB :=
  let p := GetOrNewStateObject s addr
  let obj := { p.1 with data := { p.1.data with balance := amount }, dirty := true }
  { p.2 with
      objects := updF p.2.objects addr (some obj),
      dirty := updF p.2.dirty addr true }

def AddBalance (s : StateDB) (addr : Nat) (amount : Int) : StateDB :=
  let p := GetOrNewStateObject s addr
  let obj := { p.1 with
      data := { p.1.data with balance := p.1.data.balance + amount },
      dirty := true }
  { p.2 with
      objects := updF p.2.objects addr (some obj),
      dirty := updF p.2.dirty addr true }

def SubBalance (s : StateDB) (addr : Nat) (amount : Int) : StateDB :=
  let p := GetOrNewStateObject s addr
  let obj := { p.1 with
      data := { p.1.data with balance := p.1.data.balance - amount },
      dirty := true }
  { p.2 with
      objects := updF p.2.objects addr (some obj),
      dirty := updF p.2.dirty addr true }

def GetNonce (s : StateDB) (addr : Nat) : Nat × StateDB :=
  match getStateObject s addr with
  | (some o, s1) => (o.data.nonce, s1)
  | (none, s1) => (0, s1)

def SetNonce (s : StateDB) (addr : Nat) (nonce : Nat) : StateDB :=
  let p := GetOrNewStateObject s addr
  let obj := { p.1 with data := { p.1.data with nonce := nonce }, dirty := true }
  { p.2 with
      objects := updF p.2.objects addr (some obj),
      dirty := updF p.2.dirty addr true }

def SetCode (s : StateDB) (addr : Nat) (code : List Nat) : StateDB :=
  let p := GetOrNewStateObject s addr
  let h := keccak256 code
  let obj := { p.1 with
      code := code,
      codeHash := h,
      data := { p.1.data with codeHash := h },
      dirty := true }
  { p.2 with
      objects := updF p.2.objects addr (some obj),
      dirty := updF p.2.dirty addr true }

def SetState (s : StateDB) (addr key value : Nat) : StateDB :=
  let p := GetOrNewStateObject s addr
  let obj := { p.1 with
      dirtyStorage := updF p.1.dirtyStorage key (some value),
      dirty := true }
  { p.2 with
      objects := updF p.2.objects addr (some obj),
      dirty := updF p.2.dirty addr true }

def Suicide (s : StateDB) (addr : Nat) : Bool × StateDB :=
  match getStateObject s addr with
  | (none, s1) => (false, s1)
  | (some o, s1) =>
    let obj := { o with suicided := true, data := { o.data with balance := 0 } }
    (true, { s1 with
        objects := updF s1.objects addr (some obj),
        dirty := updF s1.dirty addr true })

def Snapshot (s : StateDB) : Nat × StateDB :=
  let id := s.nextRevisionId
  (id, { s with
      nextRevisionId := id + 1,
      validRevisions := s.validRevisions ++ [{ id := id, journalIndex := s.journal.length }] })

/-- The backwards scan of RevertToSnapshot locating the most recent revision
with the given id. -/
def findRevIdx (rs : List Revision) (revid : Nat) : Option Nat :=
  (List.range rs.length).reverse.find? fun i => (rs.getD i { id := 0, journalIndex := 0 }).id == revid

def RevertToSnapshot (s : StateDB) (revid : Nat) : StateDB :=
  match findRevIdx s.validRevisions revid with
  | none => s
  | some idx =>
    let ji := (s.validRevisions.getD idx { id := 0, journalIndex := 0 }).journalIndex
    let s1 := ((s.journal.drop ji).reverse).foldl (fun st e => revertEntry e st) s
    { s1 with
        journal := s1.journal.take ji,
        validRevisions := s1.validRevisions.take idx }

def emptyObject (o : StateObject) : Bool :=
  o.data.nonce == 0 && o.data.balance == 0 && o.code.length == 0

/-- Whether the Finalise loop body marks the object deleted (suicided, or
empty while deleteEmptyObjects is requested). -/
def becomesDeleted (de : Bool) (o : StateObject) : Bool :=
  if o.suicided then true else de && emptyObject o

def finaliseObj (de : Bool) (o : StateObject) : StateObject :=
  if o.suicided then { o with deleted := true }
  else
    let o1 := { o with
      pendingStorage := fun k =>
        match o.dirtyStorage k with
        | some v => some v
        | none => o.pendingStorage k,
      dirtyStorage := fun _ => none }
    if de && emptyObject o1 then { o1 with deleted := true } else o1

/-- Finalise iterates the dirty map of the store; each loop body touches only
that address's object and inserts only that address into the deleted set, so
the loop is order-independent and is modelled pointwise. -/
def Finalise (de : Bool) (s : StateDB) : StateDB :=
  { s with
    objects := fun a =>
      match s.objects a with
      | none => none
      | some o => if s.dirty a then some (finaliseObj de o) else some o,
    deleted := fun a =>
      s.deleted a ||
        (s.dirty a && (match s.objects a with
          | none => false
          | some o => becomesDeleted de o)),
    dirty := fun _ => false }

/-- The byte stream written into the hasher by IntermediateRoot: for each
object of the map in iteration order, skipping deleted ones, the address
bytes followed by the rlp encoding of the account data (nil on encoding
error, since the source discards the error). -/
def accountStream (s : StateDB) (order : List Nat) : List Nat :=
  order.foldl
    (fun acc a =>
      match s.objects a with
      | none => acc
      | some o => if o.deleted then acc else acc ++ addrBytes a ++ (rlpAccount o.data).getD [])
    []

/-- IntermediateRoot; the order parameter is the Go map iteration order over
the objects map, which the language leaves unspecified. -/
def IntermediateRoot (s : StateDB) (de : Bool) (order : List Nat) : Nat × StateDB :=
  let s1 := Finalise de s
  let root := keccakHash (accountStream s1 order)
  if root = 0 then (emptyRoot, s1) else (root, { s1 with root := root })

/-- An order parameter is a legitimate Go map iteration order when it lists
the map's keys exactly once each. -/
def IsIterOrder (s : StateDB) (order : List Nat) : Prop :=
  order.Nodup ∧ ∀ a, (s.objects a).isSome ↔ a ∈ order

/-! ### CommitToDB, modelled as the trace of persistent-layer operations it
performs. Operations on the batch are collected separately from operations
applied immediately to the database, because the source routes only the
serialized account records through the batch; DeleteAccountData, WriteCode,
WriteStorageData and DeleteStorageData are called directly on the database.
The rawdb helpers themselves are modelled from the spec (section 6): plain
keyed put/delete writes applied when called. -/

inductive DBOp where
  | putAccount (addrHash : Nat) (data : List Nat)
  | deleteAccount (addrHash : Nat)
  | putCode (codeHash : Nat) (code : List Nat)
  | putStorage (addrHash keyHash : Nat) (value : List Nat)
  | deleteStorage (addrHash keyHash : Nat)
deriving DecidableEq

def DBOp.isAccountPut : DBOp → Bool
  | DBOp.putAccount _ _ => true
  | _ => false

/-- The pending-storage writes of one object, in the given map iteration
order of its pendingStorage map; a zero value becomes a delete. -/
def storageOps (o : StateObject) (stOrder : List Nat) : List DBOp :=
  stOrder.foldl
    (fun acc k =>
      match o.pendingStorage k with
      | none => acc
      | some v =>
        acc ++ [if v = 0 then DBOp.deleteStorage o.addrHash (keccakHash (hashBytes k))
                else DBOp.putStorage o.addrHash (keccakHash (hashBytes k)) (hashBytes v)])
    []

/-- One iteration of the CommitToDB object loop: the immediate operations it
performs and the batch operations it adds. Encoding failure (negative
balance) aborts the whole commit. -/
def commitObj (o : StateObject) (stOrder : List Nat) :
    Except Unit (List DBOp × List DBOp) :=
  if o.deleted then Except.ok ([DBOp.deleteAccount o.addrHash], [])
  else
    match rlpAccount o.data with
    | none => Except.error ()
    | some data =>
      Except.ok
        ((if 0 < o.code.length ∧ o.dirty then
            [DBOp.putCode (bytesToHash o.codeHash) o.code] else []) ++
          storageOps o stOrder,
         [DBOp.putAccount o.addrHash data])

def commitLoop (s : StateDB) (stOrder : Nat → List Nat) :
    List Nat → List DBOp → List DBOp → Except (List DBOp) (List DBOp × List DBOp)
  | [], imm, batchOps => Except.ok (imm, batchOps)
  | a :: rest, imm, batchOps =>
    match s.objects a with
    | none => commitLoop s stOrder rest imm batchOps
    | some o =>
      match commitObj o (stOrder a) with
      | Except.error _ => Except.error imm
      | Except.ok p => commitLoop s stOrder rest (imm ++ p.1) (batchOps ++ p.2)

/-- CommitToDB: on success, returns (immediate operations applied one by one
while the loop ran, batch contents written atomically by the final batch
write). On encoding failure it errors, returning the immediate operations
that had already been applied before the failure. The database is a
parameter as in the source (whose unused root parameter is dropped); order
parameters stand for the unspecified Go map iteration orders. -/
def CommitToDB (s : StateDB) (db : Option RawDB) (order : List Nat)
    (stOrder : Nat → List Nat) : Except (List DBOp) (List DBOp × List DBOp) :=
  match db with
  | none => Except.ok ([], [])
  | some _ => commitLoop s stOrder order [] []

/-! ### The block synchronizer (src/obsidian/p2p/sync.go). -/

structure ObsBlock where
  number : Nat
deriving DecidableEq

structure SyncPeer where
  id : Nat
  td : Option Int
  number : Nat
deriving DecidableEq

/-- findBestPeer: the fold keeps the first peer whose (non-nil) total
difficulty strictly exceeds the best so far. -/
def bestStep (best : Option (SyncPeer × Int)) (p : SyncPeer) : Option (SyncPeer × Int) :=
  match p.td with
  | none => best
  | some td =>
    match best with
    | none => some (p, td)
    | some q => if q.2 < td then some (p, td) else best

def findBestPeer (peers : List SyncPeer) : Option SyncPeer :=
  (peers.foldl bestStep none).map Prod.fst

/-- The per-iteration peer decision of the run loop: pick the best peer, and
proceed only if its total difficulty strictly exceeds ours (a nil local total
difficulty counts as zero). -/
def selectSyncTarget (peers : List SyncPeer) (ourTD : Option Int) : Option SyncPeer :=
  match findBestPeer peers with
  | none => none
  | some p =>
    match p.td with
    | none => none
    | some ptd => if ptd ≤ ourTD.getD 0 then none else some p

/-- The mutable state of one syncWithPeer attempt: the loop variable num, the
currentBlock progress counter, the downloaded count, and the pending-block
cache. -/
structure SyncState where
  num : Nat
  currentBlock : Nat
  downloaded : Nat
  pendingBlocks : Nat → Option ObsBlock

/-- The environment one loop iteration observes: the cancellation flag, the
outcome of the request send, the block produced by the bounded wait (none on
timeout or cancellation during the wait), and the chain's verdict on
insertion. -/
structure StepEnv where
  cancelled : Bool
  sendOk : Bool
  delivered : Option ObsBlock
  insertOk : ObsBlock → Bool

inductive StepResult where
  | finished (st : SyncState)
  | errCancelled
  | errSend (num : Nat)
  | cont (st : SyncState)

def StepResult.contState : StepResult → Option SyncState
  | StepResult.cont st => some st
  | _ => none

/-- The block-handling tail of one loop iteration: number mismatch retries the
same number; insertion failure skips to the next number without touching
currentBlock or downloaded; success advances all three. -/
def handleBlock (env : StepEnv) (st : SyncState) (b : ObsBlock) : StepResult :=
  if b.number ≠ st.num then StepResult.cont st
  else if env.insertOk b then
    StepResult.cont { st with downloaded := st.downloaded + 1,
                              currentBlock := st.num, num := st.num + 1 }
  else StepResult.cont { st with num := st.num + 1 }

/-- One iteration of the syncWithPeer download loop (for num := ourNum+1; num
less-or-equal target). -/
def syncStep (target : Nat) (env : StepEnv) (st : SyncState) : StepResult :=
  if target < st.num then StepResult.finished st
  else if env.cancelled then StepResult.errCancelled
  else
    match st.pendingBlocks st.num with
    | some b =>
      handleBlock env { st with pendingBlocks := updF st.pendingBlocks st.num none } b
    | none =>
      if env.sendOk then
        match env.delivered with
        | none => StepResult.cont st
        | some b => handleBlock env st b
      else StepResult.errSend st.num

end GobsVerify

namespace GobsVerify

/-! ### Shared helper lemmas. -/

theorem getOrNew_journal (s : StateDB) (a : Nat) :
    ((GetOrNewStateObject s a).2).journal = s.journal := by
  unfold GetOrNewStateObject createObject
  cases h : s.objects a with
  | none => rfl
  | some o =>
    by_cases hd : o.deleted <;> simp [hd]

theorem loadStateObject_journal (s : StateDB) (db : RawDB) (a : Nat) :
    ((loadStateObject s db a).2).journal = s.journal := by
  unfold loadStateObject
  dsimp only
  split
  · rfl
  · split
    · rfl
    · rfl

theorem getStateObject_journal (s : StateDB) (a : Nat) :
    ((getStateObject s a).2).journal = s.journal := by
  unfold getStateObject
  cases h : s.objects a with
  | none =>
    cases hdb : s.db with
    | none => rfl
    | some db => exact loadStateObject_journal s db a
  | some o =>
    dsimp only
    cases hd : o.deleted with
    | false => rw [if_neg (by simp [hd])]
    | true =>
      rw [if_pos (by simp [hd])]
      cases hdb : s.db with
      | none => rfl
      | some db => exact loadStateObject_journal s db a

/-! ### C1: snapshot/revert round trip. -/

def c1write1 : StateDB := SetBalance NewMemoryStateDB 1 5

def c1snap : Nat × StateDB := Snapshot c1write1

def c1write2 : StateDB := SetBalance c1snap.2 1 7

def c1reverted : StateDB := RevertToSnapshot c1write2 c1snap.1

/-- C1: the snapshot/revert round trip fails on the code. No write appends a
Change Journal record (the journal entry type has no implementation and every
write-family operation leaves the journal untouched), so after snapshot,
SetBalance to 7 and RevertToSnapshot, the balance remains 7 instead of being
restored to its pre-write value 5, and the journal is empty throughout. -/
theorem snapshot_revert_roundtrip_bug :
    (GetBalance c1write1 1).1 = 5 ∧
    (GetBalance c1reverted 1).1 = 7 ∧
    c1write2.journal = [] ∧
    (∀ (s : StateDB) (a : Nat) (v : Int), (SetBalance s a v).journal = s.journal) ∧
    (∀ (s : StateDB) (a : Nat) (v : Int), (AddBalance s a v).journal = s.journal) ∧
    (∀ (s : StateDB) (a : Nat) (v : Int), (SubBalance s a v).journal = s.journal) ∧
    (∀ (s : StateDB) (a n : Nat), (SetNonce s a n).journal = s.journal) ∧
    (∀ (s : StateDB) (a : Nat) (c : List Nat), (SetCode s a c).journal = s.journal) ∧
    (∀ (s : StateDB) (a k v : Nat), (SetState s a k v).journal = s.journal) ∧
    (∀ (s : StateDB) (a : Nat), ((Suicide s a).2).journal = s.journal) := by
  refine ⟨by decide, by decide, by decide, ?_, ?_, ?_, ?_, ?_, ?_, ?_⟩
  · intro s a v; simp [SetBalance, getOrNew_journal]
  · intro s a v; simp [AddBalance, getOrNew_journal]
  · intro s a v; simp [SubBalance, getOrNew_journal]
  · intro s a n; simp [SetNonce, getOrNew_journal]
  · intro s a c; simp [SetCode, getOrNew_journal]
  · intro s a k v; simp [SetState, getOrNew_journal]
  · intro s a
    unfold Suicide
    rcases h : getStateObject s a with ⟨o?, s1⟩
    have h1 : s1.journal = s.journal := by
      have := getStateObject_journal s a
      rw [h] at this
      exact this
    cases o? with
    | none => simpa using h1
    | some o => simpa using h1

/-! ### C4: the non-negative balance invariant. -/

def c4state : StateDB := SubBalance NewMemoryStateDB 1 1

/-- C4: the non-negative balance invariant fails on the code. SubBalance uses
plain signed big.Int subtraction with no rejection or clamping: subtracting 1
from a fresh zero-balance account stores and returns the negative balance -1. -/
theorem negative_balance_bug :
    (GetBalance c4state 1).1 = -1 ∧ (GetBalance c4state 1).1 < 0 := by
  exact ⟨by decide, by decide⟩

/-! ### C7: Finalise idempotence. -/

/-- C7: Finalise is idempotent. The first call clears the dirty set; the
second call therefore processes no address, changes no object field, storage
layer or flag, and rebuilds the same (empty) dirty set, leaving the store
exactly as after the first call. -/
theorem finalise_idempotent (de : Bool) (s : StateDB) :
    Finalise de (Finalise de s) = Finalise de s := by
  unfold Finalise
  dsimp only
  congr 1
  · funext a
    cases h : s.objects a with
    | none => simp
    | some o => cases hd : s.dirty a <;> simp
  · funext a
    simp

end GobsVerify

namespace GobsVerify

/-! ### C10: deleted-account resurrection through GetOrNewStateObject. -/

/-- C10: when the live object of an address is marked deleted,
GetOrNewStateObject replaces it in the objects map with the freshly created
zero-default object: balance 0, nonce 0, code hash equal to the hash of empty
code, empty-trie storage root, and all three storage layers empty. Every
write-family operation goes through GetOrNewStateObject, so a write after
deletion resurrects the account at this zero-default state. -/
theorem deleted_account_resurrection (s : StateDB) (addr : Nat) (o : StateObject)
    (h : s.objects addr = some o) (hd : o.deleted = true) :
    GetOrNewStateObject s addr =
      (createdObject addr,
       { s with objects := updF s.objects addr (some (createdObject addr)) }) ∧
    (createdObject addr).data.balance = 0 ∧
    (createdObject addr).data.nonce = 0 ∧
    (createdObject addr).data.codeHash = keccak256 [] ∧
    (createdObject addr).data.root = emptyRoot ∧
    (createdObject addr).originStorage = (fun _ => none) ∧
    (createdObject addr).pendingStorage = (fun _ => none) ∧
    (createdObject addr).dirtyStorage = (fun _ => none) := by
  refine ⟨?_, rfl, rfl, rfl, rfl, rfl, rfl, rfl⟩
  unfold GetOrNewStateObject createObject
  rw [h]
  dsimp only
  rw [if_pos (by simp [hd])]

def c10ex : StateDB := Finalise false (Suicide (SetNonce NewMemoryStateDB 3 1) 3).2

def c10obj : StateObject := (c10ex.objects 3).getD (createdObject 0)

theorem deleted_account_resurrection_witness :
    (GetOrNewStateObject c10ex 3).1 = createdObject 3 ∧
    (createdObject 3).data.balance = 0 ∧ (createdObject 3).data.nonce = 0 := by
  have h := deleted_account_resurrection c10ex 3 c10obj rfl rfl
  exact ⟨congrArg Prod.fst h.1, h.2.1, h.2.2.1⟩

/-! ### C6: insertion-failure handling in the download loop. -/

def StepResult.isFinished : StepResult → Bool
  | StepResult.finished _ => true
  | _ => false

def c6env : StepEnv :=
  { cancelled := false, sendOk := true, delivered := none, insertOk := fun _ => false }

def c6st : SyncState :=
  { num := 107, currentBlock := 106, downloaded := 2,
    pendingBlocks := fun n => if n = 107 then some { number := 107 } else none }

def c6st1 : SyncState := ((syncStep 107 c6env c6st).contState).getD c6st

/-- C6 counterexample: with target 107, currentBlock 106 and block 107 in the
pending cache, a failed insertion of block 107 makes the loop continue at 108
(and, the target being reached, finish), but the currentBlock progress
counter stays at 106: it never advances past 107 as the claim states. -/
theorem insertion_failure_counter_counterexample :
    ((syncStep 107 c6env c6st).contState).map SyncState.num = some 108 ∧
    ((syncStep 107 c6env c6st).contState).map SyncState.currentBlock = some 106 ∧
    (syncStep 107 c6env c6st1).isFinished = true ∧
    c6st1.currentBlock = 106 ∧
    ¬ 107 < c6st1.currentBlock := by
  refine ⟨by decide, by decide, by decide, by decide, by decide⟩

/-- C6 amended: when the block for the current number is at hand and its
insertion fails, the loop continues with the next number instead of halting
or retrying, but the currentBlock progress counter is not advanced by the
failure; only a successful insertion advances it (to the inserted number). -/
theorem insertion_failure_skips_without_counter_advance
    (target : Nat) (env : StepEnv) (st : SyncState) (b : ObsBlock)
    (hle : st.num ≤ target) (hc : env.cancelled = false)
    (hp : st.pendingBlocks st.num = some b) (hn : b.number = st.num) :
    (env.insertOk b = false →
       syncStep target env st =
         StepResult.cont { st with
           num := st.num + 1,
           pendingBlocks := updF st.pendingBlocks st.num none }) ∧
    (env.insertOk b = true →
       syncStep target env st =
         StepResult.cont { st with
           num := st.num + 1,
           currentBlock := st.num,
           downloaded := st.downloaded + 1,
           pendingBlocks := updF st.pendingBlocks st.num none }) := by
  constructor
  · intro hi
    unfold syncStep
    rw [if_neg (by omega), if_neg (by simp [hc]), hp]
    unfold handleBlock
    dsimp only
    rw [if_neg (by simp [hn]), if_neg (by simp [hi])]
  · intro hi
    unfold syncStep
    rw [if_neg (by omega), if_neg (by simp [hc]), hp]
    unfold handleBlock
    dsimp only
    rw [if_neg (by simp [hn]), if_pos (by simp [hi])]

theorem insertion_failure_skips_witness :
    ((syncStep 200 c6env c6st).contState).map SyncState.currentBlock = some 106 ∧
    ((syncStep 200 c6env c6st).contState).map SyncState.num = some 108 := by
  have h := (insertion_failure_skips_without_counter_advance 200 c6env c6st
    { number := 107 } (by decide) rfl rfl rfl).1 rfl
  rw [h]
  exact ⟨rfl, rfl⟩

end GobsVerify

namespace GobsVerify

/-! ### C9: peer selection. -/

theorem bestStep_td (acc : Option (SyncPeer × Int)) (p : SyncPeer)
    (h : ∀ q t, acc = some (q, t) → q.td = some t) :
    ∀ q t, bestStep acc p = some (q, t) → q.td = some t := by
  intro q t hb
  unfold bestStep at hb
  cases hp : p.td with
  | none => rw [hp] at hb; exact h q t hb
  | some td =>
    rw [hp] at hb
    cases acc with
    | none =>
      dsimp only at hb
      cases hb
      exact hp
    | some qq =>
      dsimp only at hb
      by_cases hlt : qq.2 < td
      · rw [if_pos hlt] at hb
        cases hb
        exact hp
      · rw [if_neg hlt] at hb
        exact h q t hb

theorem foldBest_consistent (l : List SyncPeer) :
    ∀ (acc : Option (SyncPeer × Int)),
      (∀ q t, acc = some (q, t) → q.td = some t) →
      ∀ q t, l.foldl bestStep acc = some (q, t) → q.td = some t := by
  induction l with
  | nil => intro acc h q t hf; exact h q t hf
  | cons p rest ih =>
    intro acc h q t hf
    exact ih (bestStep acc p) (bestStep_td acc p h) q t hf

theorem foldBest_mem (l : List SyncPeer) :
    ∀ (acc : Option (SyncPeer × Int)) (q : SyncPeer) (t : Int),
      l.foldl bestStep acc = some (q, t) → acc = some (q, t) ∨ q ∈ l := by
  induction l with
  | nil => intro acc q t h; exact Or.inl h
  | cons p rest ih =>
    intro acc q t h
    rcases ih (bestStep acc p) q t h with hstep | hmem
    · unfold bestStep at hstep
      cases hp : p.td with
      | none => rw [hp] at hstep; exact Or.inl hstep
      | some td =>
        rw [hp] at hstep
        cases acc with
        | none =>
          dsimp only at hstep
          cases hstep
          exact Or.inr (List.mem_cons_self _ _)
        | some qq =>
          dsimp only at hstep
          by_cases hlt : qq.2 < td
          · rw [if_pos hlt] at hstep
            cases hstep
            exact Or.inr (List.mem_cons_self _ _)
          · rw [if_neg hlt] at hstep
            exact Or.inl hstep
    · exact Or.inr (List.mem_cons_of_mem _ hmem)

theorem foldBest_mono (l : List SyncPeer) :
    ∀ (q0 : SyncPeer) (t0 : Int) (q : SyncPeer) (t : Int),
      l.foldl bestStep (some (q0, t0)) = some (q, t) → t0 ≤ t := by
  induction l with
  | nil =>
    intro q0 t0 q t h
    cases h
    exact le_refl _
  | cons p rest ih =>
    intro q0 t0 q t h
    simp only [List.foldl_cons] at h
    unfold bestStep at h
    cases hp : p.td with
    | none => rw [hp] at h; exact ih q0 t0 q t h
    | some td =>
      rw [hp] at h
      dsimp only at h
      by_cases hlt : t0 < td
      · rw [if_pos hlt] at h
        exact le_trans (le_of_lt hlt) (ih p td q t h)
      · rw [if_neg hlt] at h
        exact ih q0 t0 q t h

theorem foldBest_max (l : List SyncPeer) :
    ∀ (acc : Option (SyncPeer × Int)) (q : SyncPeer) (t : Int),
      l.foldl bestStep acc = some (q, t) →
      ∀ r ∈ l, ∀ u, r.td = some u → u ≤ t := by
  induction l with
  | nil => intro acc q t _ r hr; exact absurd hr (List.not_mem_nil _)
  | cons p rest ih =>
    intro acc q t h r hr u hu
    simp only [List.foldl_cons] at h
    rcases List.mem_cons.1 hr with hrp | hrr
    · subst hrp
      unfold bestStep at h
      rw [hu] at h
      cases acc with
      | none =>
        dsimp only at h
        exact foldBest_mono rest r u q t h
      | some qq =>
        dsimp only at h
        by_cases hlt : qq.2 < u
        · rw [if_pos hlt] at h
          exact foldBest_mono rest r u q t h
        · rw [if_neg hlt] at h
          exact le_trans (not_lt.1 hlt) (foldBest_mono rest qq.1 qq.2 q t (by
            have hqq : (qq.1, qq.2) = qq := rfl
            rw [hqq]
            exact h))
    · exact ih (bestStep acc p) q t h r hrr u hu

theorem findBestPeer_spec (peers : List SyncPeer) (p : SyncPeer)
    (h : findBestPeer peers = some p) :
    p ∈ peers ∧ ∃ t, p.td = some t ∧ ∀ q ∈ peers, ∀ u, q.td = some u → u ≤ t := by
  unfold findBestPeer at h
  cases hf : peers.foldl bestStep none with
  | none => rw [hf] at h; cases h
  | some pair =>
    rw [hf] at h
    cases h
    have hpair : peers.foldl bestStep none = some (pair.1, pair.2) := by
      rw [hf]
    have hmem := foldBest_mem peers none pair.1 pair.2 hpair
    have htd := foldBest_consistent peers none (by intro q t hq; cases hq) pair.1 pair.2 hpair
    have hmax := foldBest_max peers none pair.1 pair.2 hpair
    rcases hmem with habs | hmem
    · cases habs
    · exact ⟨hmem, pair.2, htd, hmax⟩

/-- C9: on each run-loop iteration the synchronizer selects a connected peer
whose reported total difficulty is maximal among all peers that report one,
and it proceeds to a fetch attempt exactly when that difficulty strictly
exceeds the local chain's total difficulty (a missing local difficulty counts
as zero); when every peer's difficulty is at most the local one, no fetch
attempt is started. -/
theorem peer_selection_spec :
    (∀ (peers : List SyncPeer) (p : SyncPeer), findBestPeer peers = some p →
       p ∈ peers ∧ ∃ t, p.td = some t ∧ ∀ q ∈ peers, ∀ u, q.td = some u → u ≤ t) ∧
    (∀ (peers : List SyncPeer) (ourTD : Option Int) (p : SyncPeer),
       selectSyncTarget peers ourTD = some p →
       findBestPeer peers = some p ∧ ∃ t, p.td = some t ∧ ourTD.getD 0 < t) ∧
    (∀ (peers : List SyncPeer) (ourTD : Option Int),
       (∀ q ∈ peers, ∀ u, q.td = some u → u ≤ ourTD.getD 0) →
       selectSyncTarget peers ourTD = none) := by
  refine ⟨findBestPeer_spec, ?_, ?_⟩
  · intro peers ourTD p h
    unfold selectSyncTarget at h
    cases hb : findBestPeer peers with
    | none => rw [hb] at h; cases h
    | some p0 =>
      rw [hb] at h
      dsimp only at h
      cases ht : p0.td with
      | none => rw [ht] at h; cases h
      | some t0 =>
        rw [ht] at h
        dsimp only at h
        by_cases hle : t0 ≤ ourTD.getD 0
        · rw [if_pos hle] at h; cases h
        · rw [if_neg hle] at h
          injection h with h2
          subst h2
          exact ⟨rfl, t0, ht, not_le.1 hle⟩
  · intro peers ourTD hall
    unfold selectSyncTarget
    cases hb : findBestPeer peers with
    | none => rfl
    | some p0 =>
      rcases findBestPeer_spec peers p0 hb with ⟨hmem, t0, ht, _⟩
      dsimp only
      rw [ht]
      dsimp only
      rw [if_pos (hall p0 hmem t0 ht)]

def c9peers : List SyncPeer :=
  [{ id := 1, td := some 5, number := 50 },
   { id := 2, td := some 12, number := 120 },
   { id := 3, td := some 9, number := 90 }]

theorem peer_selection_spec_witness :
    selectSyncTarget c9peers (some 10) = some { id := 2, td := some 12, number := 120 } ∧
    ({ id := 2, td := some 12, number := 120 } : SyncPeer) ∈ c9peers ∧
    selectSyncTarget c9peers (some 15) = none := by
  refine ⟨by decide, ?_, ?_⟩
  · exact (peer_selection_spec.1 c9peers { id := 2, td := some 12, number := 120 } (by decide)).1
  · refine peer_selection_spec.2.2 c9peers (some 15) ?_
    intro q hq u hu
    fin_cases hq <;> (injection hu with h; simp only [Option.getD_some]; omega)

end GobsVerify

namespace GobsVerify

/-! ### C8: storage read resolution order. -/

end GobsVerify

namespace GobsVerify

/-! ### C3: what CommitToDB routes through the batch. -/

theorem storageOps_not_accountPut (o : StateObject) (st : List Nat) :
    ∀ op ∈ storageOps o st, op.isAccountPut = false := by
  unfold storageOps
  suffices hgen : ∀ (l : List Nat) (acc : List DBOp),
      (∀ op ∈ acc, op.isAccountPut = false) →
      ∀ op ∈ l.foldl (fun acc k =>
        match o.pendingStorage k with
        | none => acc
        | some v =>
          acc ++ [if v = 0 then DBOp.deleteStorage o.addrHash (keccakHash (hashBytes k))
                  else DBOp.putStorage o.addrHash (keccakHash (hashBytes k)) (hashBytes v)]) acc,
        op.isAccountPut = false by
    exact hgen st [] (by intro op hop; exact absurd hop (List.not_mem_nil _))
  intro l
  induction l with
  | nil => intro acc hacc op hop; exact hacc op hop
  | cons k rest ih =>
    intro acc hacc op hop
    simp only [List.foldl_cons] at hop
    refine ih _ ?_ op hop
    cases hpk : o.pendingStorage k with
    | none => simpa [hpk] using hacc
    | some v =>
      simp only [hpk]
      intro op2 hop2
      rcases List.mem_append.1 hop2 with hin | hin
      · exact hacc op2 hin
      · rcases List.mem_singleton.1 hin with rfl
        by_cases hv : v = 0 <;> simp [hv, DBOp.isAccountPut]

theorem commitObj_shape (o : StateObject) (st : List Nat)
    (p : List DBOp × List DBOp) (h : commitObj o st = Except.ok p) :
    (∀ op ∈ p.1, op.isAccountPut = false) ∧ (∀ op ∈ p.2, op.isAccountPut = true) := by
  unfold commitObj at h
  by_cases hdel : o.deleted = true
  · rw [if_pos hdel] at h
    injection h with h2
    subst h2
    constructor
    · intro op hop
      rcases List.mem_singleton.1 hop with rfl
      rfl
    · intro op hop
      exact absurd hop (List.not_mem_nil _)
  · rw [if_neg hdel] at h
    cases hr : rlpAccount o.data with
    | none => rw [hr] at h; cases h
    | some data =>
      rw [hr] at h
      dsimp only at h
      injection h with h2
      subst h2
      constructor
      · intro op hop
        rcases List.mem_append.1 hop with hin | hin
        · by_cases hc : 0 < o.code.length ∧ o.dirty = true
          · rw [if_pos hc] at hin
            rcases List.mem_singleton.1 hin with rfl
            rfl
          · rw [if_neg hc] at hin
            exact absurd hin (List.not_mem_nil _)
        · exact storageOps_not_accountPut o st op hin
      · intro op hop
        rcases List.mem_singleton.1 hop with rfl
        rfl

theorem commitLoop_spec (s : StateDB) (stOrder : Nat → List Nat) :
    ∀ (order : List Nat) (imm batchOps : List DBOp),
      (∀ op ∈ imm, op.isAccountPut = false) →
      (∀ op ∈ batchOps, op.isAccountPut = true) →
      (∀ imm2 batch2, commitLoop s stOrder order imm batchOps = Except.ok (imm2, batch2) →
         (∀ op ∈ imm2, op.isAccountPut = false) ∧ (∀ op ∈ batch2, op.isAccountPut = true)) ∧
      (∀ imm2, commitLoop s stOrder order imm batchOps = Except.error imm2 →
         ∀ op ∈ imm2, op.isAccountPut = false) := by
  intro order
  induction order with
  | nil =>
    intro imm batchOps himm hbatch
    constructor
    · intro imm2 batch2 h
      unfold commitLoop at h
      injection h with h2
      rw [Prod.mk.injEq] at h2
      rcases h2 with ⟨h3, h4⟩
      subst h3; subst h4
      exact ⟨himm, hbatch⟩
    · intro imm2 h
      unfold commitLoop at h
      cases h
  | cons a rest ih =>
    intro imm batchOps himm hbatch
    constructor
    · intro imm2 batch2 h
      unfold commitLoop at h
      cases hobj : s.objects a with
      | none =>
        rw [hobj] at h
        exact (ih imm batchOps himm hbatch).1 imm2 batch2 h
      | some o =>
        rw [hobj] at h
        dsimp only at h
        cases hco : commitObj o (stOrder a) with
        | error e => rw [hco] at h; cases h
        | ok p =>
          rw [hco] at h
          dsimp only at h
          have hp := commitObj_shape o (stOrder a) p hco
          refine (ih (imm ++ p.1) (batchOps ++ p.2) ?_ ?_).1 imm2 batch2 h
          · intro op hop
            rcases List.mem_append.1 hop with hin | hin
            · exact himm op hin
            · exact hp.1 op hin
          · intro op hop
            rcases List.mem_append.1 hop with hin | hin
            · exact hbatch op hin
            · exact hp.2 op hin
    · intro imm2 h
      unfold commitLoop at h
      cases hobj : s.objects a with
      | none =>
        rw [hobj] at h
        exact (ih imm batchOps himm hbatch).2 imm2 h
      | some o =>
        rw [hobj] at h
        dsimp only at h
        cases hco : commitObj o (stOrder a) with
        | error e =>
          rw [hco] at h
          dsimp only at h
          injection h with h2
          subst h2
          exact himm
        | ok p =>
          rw [hco] at h
          dsimp only at h
          have hp := commitObj_shape o (stOrder a) p hco
          refine (ih (imm ++ p.1) (batchOps ++ p.2) ?_ ?_).2 imm2 h
          · intro op hop
            rcases List.mem_append.1 hop with hin | hin
            · exact himm op hin
            · exact hp.1 op hin
          · intro op hop
            rcases List.mem_append.1 hop with hin | hin
            · exact hbatch op hin
            · exact hp.2 op hin

/-- C3 amended: CommitToDB routes only the serialized account records through
the batch whose final write is atomic; every other persistent effect — the
deletion of a deleted account's record, a code write, and each pending
storage write or delete — is applied immediately and individually to the
database while the loop runs (and remains applied even when a later encoding
failure aborts the commit), so these effects are not covered by the batch's
all-or-nothing write. -/
theorem commit_batches_only_account_records :
    (∀ (s : StateDB) (db : Option RawDB) (order : List Nat) (stOrder : Nat → List Nat)
       (imm batchOps : List DBOp),
       CommitToDB s db order stOrder = Except.ok (imm, batchOps) →
       (∀ op ∈ imm, op.isAccountPut = false) ∧ (∀ op ∈ batchOps, op.isAccountPut = true)) ∧
    (∀ (s : StateDB) (db : Option RawDB) (order : List Nat) (stOrder : Nat → List Nat)
       (imm : List DBOp),
       CommitToDB s db order stOrder = Except.error imm →
       ∀ op ∈ imm, op.isAccountPut = false) := by
  have hnil : ∀ op ∈ ([] : List DBOp), op.isAccountPut = false := by
    intro op hop; exact absurd hop (List.not_mem_nil _)
  have hnil2 : ∀ op ∈ ([] : List DBOp), op.isAccountPut = true := by
    intro op hop; exact absurd hop (List.not_mem_nil _)
  constructor
  · intro s db order stOrder imm batchOps h
    unfold CommitToDB at h
    cases db with
    | none =>
      injection h with h2
      rw [Prod.mk.injEq] at h2
      rcases h2 with ⟨h3, h4⟩
      subst h3; subst h4
      exact ⟨hnil, hnil2⟩
    | some d => exact (commitLoop_spec s stOrder order [] [] hnil hnil2).1 imm batchOps h
  · intro s db order stOrder imm h
    unfold CommitToDB at h
    cases db with
    | none => cases h
    | some d => exact (commitLoop_spec s stOrder order [] [] hnil hnil2).2 imm h

def c3dbTriv : RawDB :=
  { accountData := fun _ => none, codeData := fun _ => [], storageData := fun _ _ => none }

def c3store : StateDB := Finalise false (SetState NewMemoryStateDB 5 7 9)

def c3stOrder : Nat → List Nat := fun _ => [7]

def c3acct : Account :=
  { nonce := 0, balance := 0, root := emptyRoot, codeHash := emptyCodeHash }

def c3imm : List DBOp :=
  [DBOp.putStorage (keccakHash (addrBytes 5)) (keccakHash (hashBytes 7)) (hashBytes 9)]

def c3batch : List DBOp :=
  [DBOp.putAccount (keccakHash (addrBytes 5)) ((rlpAccount c3acct).getD [])]

def commitResultOk : Except (List DBOp) (List DBOp × List DBOp) →
    Option (List DBOp × List DBOp)
  | Except.ok p => some p
  | Except.error _ => none

theorem commitResultOk_eq (x : Except (List DBOp) (List DBOp × List DBOp))
    (p : List DBOp × List DBOp) (h : commitResultOk x = some p) : x = Except.ok p := by
  cases x with
  | ok q =>
    injection h with h2
    rw [h2]
  | error e => cases h

/-- C3 counterexample: committing a store holding one account with one pending
storage entry performs the storage write immediately on the database, outside
the batch: the batch holds only the serialized account record, so not every
effect of the commit goes through the single all-or-nothing batch. -/
theorem commit_not_atomic_counterexample :
    commitResultOk (CommitToDB c3store (some c3dbTriv) [5] c3stOrder) = some (c3imm, c3batch) ∧
    c3imm ≠ [] := by
  exact ⟨rfl, by decide⟩

theorem commit_batches_only_account_records_witness :
    (∀ op ∈ c3imm, op.isAccountPut = false) ∧ (∀ op ∈ c3batch, op.isAccountPut = true) := by
  exact commit_batches_only_account_records.1 c3store (some c3dbTriv) [5] c3stOrder
    c3imm c3batch rfl

end GobsVerify

namespace GobsVerify

/-! ### C2: root determinism under map iteration order. -/

def c2store : StateDB := SetNonce (SetNonce NewMemoryStateDB 1 1) 2 1

theorem c2store_objects_none (a : Nat) (h1 : a ≠ 1) (h2 : a ≠ 2) :
    (Finalise true c2store).objects a = none := by
  have hbase : c2store.objects a = none := by
    simp [c2store, SetNonce, GetOrNewStateObject, createObject, NewMemoryStateDB, updF, h1, h2]
  unfold Finalise
  dsimp only
  rw [hbase]

theorem c2_iter_order (order : List Nat) (hnd : order.Nodup)
    (hmem : ∀ a, a ∈ order ↔ (a = 1 ∨ a = 2))
    (h1 : ((Finalise true c2store).objects 1).isSome = true)
    (h2 : ((Finalise true c2store).objects 2).isSome = true) :
    IsIterOrder (Finalise true c2store) order := by
  refine ⟨hnd, ?_⟩
  intro a
  constructor
  · intro hs
    by_contra hno
    have ha1 : a ≠ 1 := by
      intro he; exact hno ((hmem a).2 (Or.inl he))
    have ha2 : a ≠ 2 := by
      intro he; exact hno ((hmem a).2 (Or.inr he))
    rw [c2store_objects_none a ha1 ha2] at hs
    cases hs
  · intro hin
    rcases (hmem a).1 hin with he | he
    · subst he; exact h1
    · subst he; exact h2

/-- C2: root determinism fails on the code. IntermediateRoot hashes the
objects map in Go map iteration order, which the language leaves unspecified:
for one and the same store (built by applying the same two writes in either
order — the stores are equal), the iteration orders 1,2 and 2,1 of the
two-account object map are both legitimate yet produce different root hashes,
so the root is not computed in a fixed address-sorted order and is not
deterministic. -/
theorem root_hash_depends_on_iteration_order :
    SetNonce (SetNonce NewMemoryStateDB 1 1) 2 1 =
      SetNonce (SetNonce NewMemoryStateDB 2 1) 1 1 ∧
    IsIterOrder (Finalise true c2store) [1, 2] ∧
    IsIterOrder (Finalise true c2store) [2, 1] ∧
    (IntermediateRoot c2store true [1, 2]).1 ≠ (IntermediateRoot c2store true [2, 1]).1 := by
  refine ⟨?_, ?_, ?_, by decide⟩
  · refine StateDB.ext ?_ ?_ ?_ ?_ ?_ ?_ ?_ ?_ ?_ ?_ ?_ ?_
    · rfl
    · rfl
    · funext a
      by_cases h1 : a = 1
      · subst h1; rfl
      · by_cases h2 : a = 2
        · subst h2; rfl
        · simp [SetNonce, GetOrNewStateObject, createObject, NewMemoryStateDB, updF, h1, h2]
    · funext a
      by_cases h1 : a = 1
      · subst h1; rfl
      · by_cases h2 : a = 2
        · subst h2; rfl
        · simp [SetNonce, GetOrNewStateObject, createObject, NewMemoryStateDB, updF, h1, h2]
    · rfl
    · rfl
    · rfl
    · rfl
    · rfl
    · rfl
    · rfl
    · rfl
  · refine c2_iter_order [1, 2] (by decide) ?_ (by decide) (by decide)
    intro a; simp [or_comm]
  · refine c2_iter_order [2, 1] (by decide) ?_ (by decide) (by decide)
    intro a; simp [or_comm]

/-! ### C5: the root returned when there are no live accounts. -/

theorem finaliseObj_keeps_deleted (de : Bool) (o : StateObject) (h : o.deleted = true) :
    (finaliseObj de o).deleted = true := by
  unfold finaliseObj
  split
  · rfl
  · dsimp only
    split
    · rfl
    · exact h

theorem finalise_all_deleted (de : Bool) (s : StateDB)
    (h : ∀ a o, s.objects a = some o → o.deleted = true) :
    ∀ a o2, (Finalise de s).objects a = some o2 → o2.deleted = true := by
  intro a o2 h2
  unfold Finalise at h2
  dsimp only at h2
  cases ho : s.objects a with
  | none => rw [ho] at h2; cases h2
  | some o =>
    rw [ho] at h2
    dsimp only at h2
    by_cases hd : s.dirty a = true
    · rw [if_pos hd] at h2
      injection h2 with h3
      subst h3
      exact finaliseObj_keeps_deleted de o (h a o ho)
    · rw [if_neg hd] at h2
      injection h2 with h3
      subst h3
      exact h a o ho

theorem accountStream_all_deleted (s2 : StateDB) (order : List Nat)
    (h : ∀ a o, s2.objects a = some o → o.deleted = true) :
    accountStream s2 order = [] := by
  unfold accountStream
  suffices hgen : ∀ (l : List Nat) (acc : List Nat),
      l.foldl (fun acc a =>
        match s2.objects a with
        | none => acc
        | some o => if o.deleted then acc else acc ++ addrBytes a ++ (rlpAccount o.data).getD []) acc
        = acc by
    exact hgen order []
  intro l
  induction l with
  | nil => intro acc; rfl
  | cons a rest ih =>
    intro acc
    simp only [List.foldl_cons]
    rw [show (match s2.objects a with
        | none => acc
        | some o => if o.deleted then acc else acc ++ addrBytes a ++ (rlpAccount o.data).getD [])
        = acc from ?_]
    · exact ih acc
    · cases ho : s2.objects a with
      | none => rfl
      | some o =>
        dsimp only
        rw [if_pos]
        exact h a o ho

/-- C5 amended: whenever the store holds no live (non-deleted) accounts,
IntermediateRoot writes nothing into the hasher and returns the Keccak-256
hash of the empty input, 0xc5d2...a470, for either value of deleteEmpty; it
would return the well-known empty-trie constant emptyRoot = 0x56e8...b421
only if the squeezed hash were the all-zero hash, which the empty-input hash
is not. -/
theorem intermediate_root_no_live_accounts (s : StateDB) (de : Bool) (order : List Nat)
    (h : ∀ a o, s.objects a = some o → o.deleted = true) :
    (IntermediateRoot s de order).1 =
      0xc5d2460186f7233c927e7db2dcc703c0e500b653ca82273b7bfad8045d85a470 ∧
    (IntermediateRoot s de order).1 ≠ emptyRoot := by
  have hstream : accountStream (Finalise de s) order = [] :=
    accountStream_all_deleted (Finalise de s) order (finalise_all_deleted de s h)
  unfold IntermediateRoot
  dsimp only
  rw [hstream]
  rw [if_neg (by decide)]
  constructor
  · show keccakHash [] =
      0xc5d2460186f7233c927e7db2dcc703c0e500b653ca82273b7bfad8045d85a470
    decide
  · show keccakHash [] ≠ emptyRoot
    decide

/-- C5 counterexample: on a store with no accounts at all, IntermediateRoot
does not return the empty-trie constant, for either value of deleteEmpty. -/
theorem empty_root_constant_counterexample :
    (IntermediateRoot NewMemoryStateDB true []).1 ≠ emptyRoot ∧
    (IntermediateRoot NewMemoryStateDB false []).1 ≠ emptyRoot ∧
    NewMemoryStateDB.objects = (fun _ => none) := by
  refine ⟨by decide, by decide, rfl⟩

theorem intermediate_root_no_live_accounts_witness :
    (IntermediateRoot NewMemoryStateDB true []).1 =
      0xc5d2460186f7233c927e7db2dcc703c0e500b653ca82273b7bfad8045d85a470 := by
  refine (intermediate_root_no_live_accounts NewMemoryStateDB true [] ?_).1
  intro a o h
  simp [NewMemoryStateDB] at h

end GobsVerify
